import Mathlib

/-!
Verification development for `src/lazy_transform.rs` (repository clayrat/figra).

The Rust code implements a lock-free lazily evaluated cache `LazyTransform<T, S, FN>`
holding an atomic pending-source slot, an atomic cached-value slot, a transform
function `FN : Fn(S) -> Option<T>` and a non-blocking single-bit latch `LightLock`.

This file gives a shallow embedding:

* a sequential state model `LazyTransform` with the two slots and the latch bit,
  instrumented with a ghost list `transformCalls` recording every source value
  that is handed to the transform function (the drain in `try_transform`);
* an exact model `tryLock` / `dropGuard` of `LightLock::try_lock` and
  `LightGuard::drop`;
* an allocation-tracking model `RState` of the crossbeam-epoch reclamation
  behaviour (boxes allocated by `Owned::new`, freed by `defer_destroy`,
  inner `ManuallyDrop` contents moved out by `ptr::read`);
* an interleaved multi-thread small-step model `CState` / `CStep` used for the
  mutual-exclusion property of the transform body.
-/

/-- Sequential state of `LazyTransform<T, S, FN>` (src/lazy_transform.rs lines 10-16).
The `transform_fn` field is passed explicitly to each operation instead of being
stored.  `source` models the atomic pending-source slot (`Atomic<ManuallyDrop<S>>`,
null = `none`), `value` the atomic cached-value slot (`Atomic<T>`), and
`transform_lock` the `LightLock` bit.  `transformCalls` is ghost instrumentation:
the list of source values passed to the transform function so far, in order. -/
structure LazyTransform (T S : Type) where
  source : Option S
  value : Option T
  transform_lock : Bool
  transformCalls : List S
deriving Repr, DecidableEq

/-- `LazyTransform::new` (lines 19-26): both slots null, lock free. -/
def LazyTransform.new (T S : Type) : LazyTransform T S :=
  { source := none, value := none, transform_lock := false, transformCalls := [] }

/-- `LightLock::try_lock` (lines 99-106): atomically swap `true` into the bit;
return a guard exactly when the previous value was `false`.  The pair is
(optional guard, new lock bit). -/
def tryLock (b : Bool) : Option Unit × Bool :=
  if b then (none, true) else (some (), true)

/-- `LightGuard::drop` (lines 113-117): store `false` into the lock bit. -/
def dropGuard (_ : Bool) : Bool :=
  false

/-- `LazyTransform::set_source` (lines 29-36): unconditionally replace the
pending-source slot.  The superseded previous source box is handed to
`defer_destroy`; the sequential model tracks that in `RState` below. -/
def setSource {T S : Type} (st : LazyTransform T S) (s : S) : LazyTransform T S :=
  { st with source := some s }

/-- `LazyTransform::try_transform` (lines 41-69): try to take the lock; on
success drain the pending-source slot; if a source was pending, run the
transform on it (recorded in the ghost `transformCalls`); on transform success
publish the new value in the cached-value slot.  The guard is dropped
(`dropGuard`) on every exit path of the critical section, mirroring the Rust
scope-bound release. -/
def tryTransform {T S : Type} (f : S → Option T) (st : LazyTransform T S) :
    Option T × LazyTransform T S :=
  match tryLock st.transform_lock with
  | (none, locked1) => (none, { st with transform_lock := locked1 })
  | (some _, locked1) =>
    let st1 := { st with transform_lock := locked1 }
    match st1.source with
    | none => (none, { st1 with transform_lock := dropGuard st1.transform_lock })
    | some s =>
      let st2 := { st1 with source := none, transformCalls := st1.transformCalls ++ [s] }
      match f s with
      | none => (none, { st2 with transform_lock := dropGuard st2.transform_lock })
      | some newval =>
        (some newval,
         { st2 with value := some newval, transform_lock := dropGuard st2.transform_lock })

/-- `LazyTransform::get_transformed` (lines 73-88): advisory check of the
pending-source slot; if a source might exist, attempt `try_transform` and
return its value on success; otherwise fall back to a clone of the
cached-value slot. -/
def getTransformed {T S : Type} (f : S → Option T) (st : LazyTransform T S) :
    Option T × LazyTransform T S :=
  if st.source.isSome then
    match tryTransform f st with
    | (some v, st1) => (some v, st1)
    | (none, st1) => (st1.value, st1)
  else (st.value, st)

/-- The example transform of the spec scenario: double even integers, decline
odd ones. -/
def doubleEven : Int → Option Int :=
  fun n => if n % 2 = 0 then some (2 * n) else none

/-- A burst of `set_source` calls with no reads in between (left fold over the
list of published sources). -/
def setSources {T S : Type} (st : LazyTransform T S) (l : List S) : LazyTransform T S :=
  l.foldl setSource st

/-- A sequential client operation: publish a source or read. -/
inductive Op (S : Type) where
  | setSrc (s : S)
  | read
deriving Repr, DecidableEq

/-- Apply one client operation; a `read` additionally yields the value
returned by `get_transformed`. -/
def applyOp {T S : Type} (f : S → Option T) (op : Op S) (st : LazyTransform T S) :
    LazyTransform T S × Option (Option T) :=
  match op with
  | .setSrc s => (setSource st s, none)
  | .read =>
    match getTransformed f st with
    | (r, st1) => (st1, some r)

/-- Run a list of client operations, collecting the values returned by the
`read` operations in order. -/
def runOps {T S : Type} (f : S → Option T) (st : LazyTransform T S) :
    List (Op S) → LazyTransform T S × List (Option T)
  | [] => (st, [])
  | op :: ops =>
    match applyOp f op st with
    | (st1, out) =>
      match runOps f st1 ops with
      | (st2, outs) =>
        (st2, match out with
              | none => outs
              | some r => r :: outs)

/-- Holds of a list of optional read results when, once a `some` result
appears, every later result is also a `some` (the cache never reverts to
empty from a reader's point of view). -/
def onceSomeAlwaysSome {T : Type} : List (Option T) → Bool
  | [] => true
  | none :: rest => onceSomeAlwaysSome rest
  | some _ :: rest => rest.all Option.isSome

/-!
Allocation-tracking model of the crossbeam-epoch reclamation behaviour.

Every `Owned::new` allocation is given a fresh id from a counter.  The
pending-source slot holds the id and inner value of the current source box
(`Atomic<ManuallyDrop<S>>`), the cached-value slot the id and value of the
current value box (`Atomic<T>`).

Release events, faithful to the Rust code:
* `defer_destroy` on a source box (a `Shared<ManuallyDrop<S>>`) runs the
  destructor of `ManuallyDrop<S>` — a no-op on the inner `S` — and frees the
  box: the id is appended to `srcBoxFreed` only;
* `ptr::read` + `ManuallyDrop::into_inner` in `try_transform` moves the inner
  `S` out of the drained box and hands ownership to the transform function:
  the id is appended to `srcInnerReleased`;
* `defer_destroy` on a value box (a `Shared<T>`) runs the destructor of `T`
  and frees the box: the id is appended to `valReleased`.
-/
structure RState (T S : Type) where
  pending : Option (Nat × S)
  cached : Option (Nat × T)
  transform_lock : Bool
  nextId : Nat
  srcBoxFreed : List Nat
  srcInnerReleased : List Nat
  valReleased : List Nat
deriving Repr, DecidableEq

/-- `LazyTransform::new` in the allocation-tracking model. -/
def RState.new (T S : Type) : RState T S :=
  { pending := none, cached := none, transform_lock := false, nextId := 0,
    srcBoxFreed := [], srcInnerReleased := [], valReleased := [] }

/-- `set_source` in the allocation-tracking model (lines 29-36): allocate a
fresh box for the new source and swap it in; if a previous pending box
existed, `defer_destroy` it — this frees the box and drops the
`ManuallyDrop<S>` wrapper, which does NOT run the destructor of the inner
`S`, so `srcInnerReleased` is not extended. -/
def rSetSource {T S : Type} (st : RState T S) (s : S) : RState T S :=
  { st with
    pending := some (st.nextId, s),
    nextId := st.nextId + 1,
    srcBoxFreed := st.srcBoxFreed ++ (match st.pending with
      | some (i, _) => [i]
      | none => []) }

/-- `try_transform` in the allocation-tracking model (lines 41-69).  When the
lock is free and a source box is pending: `defer_destroy` frees the drained
box, `ptr::read` + `into_inner` moves the inner `S` into the transform
function; on transform success a fresh value box is allocated and the
superseded cached box (if any) is `defer_destroy`-ed, running the destructor
of `T`. -/
def rTryTransform {T S : Type} (f : S → Option T) (st : RState T S) :
    Option T × RState T S :=
  if st.transform_lock then (none, st)
  else
    match st.pending with
    | none => (none, st)
    | some (i, s) =>
      let st1 := { st with
        pending := none,
        srcBoxFreed := st.srcBoxFreed ++ [i],
        srcInnerReleased := st.srcInnerReleased ++ [i] }
      match f s with
      | none => (none, st1)
      | some v =>
        (some v,
         { st1 with
           cached := some (st1.nextId, v),
           nextId := st1.nextId + 1,
           valReleased := st1.valReleased ++ (match st1.cached with
             | some (k, _) => [k]
             | none => []) })

/-- `get_transformed` in the allocation-tracking model (lines 73-88). -/
def rGetTransformed {T S : Type} (f : S → Option T) (st : RState T S) :
    Option T × RState T S :=
  if st.pending.isSome then
    match rTryTransform f st with
    | (some v, st1) => (some v, st1)
    | (none, st1) => (st1.cached.map Prod.snd, st1)
  else (st.cached.map Prod.snd, st)

/-- Destruction of the `LazyTransform` in the allocation-tracking model.
The Rust code implements no `Drop` for `LazyTransform`, and dropping a
crossbeam-epoch `Atomic<T>` does not destroy the object it points to (that
requires an explicit `into_owned`, e.g. in a `Drop` impl).  So destruction
discards both slots without appending any release event: a still-pending
source box and a cached value box are leaked. -/
def rDestroy {T S : Type} (st : RState T S) : RState T S :=
  { st with pending := none, cached := none }

/-!
Interleaved multi-thread model of `get_transformed`, used for the
mutual-exclusion property.  Each thread steps through the control points of
`get_transformed` / `try_transform`; atomic operations of the Rust code are
single steps on the shared state.  An environment step models concurrent
producers calling `set_source`.
-/

/-- Control point of one thread inside `get_transformed`. -/
inductive TPC (T S : Type) where
  | idle
  | atTryLock
  | atDrain
  | transforming (s : S)
  | atPublish (v : T)
  | atUnlock (r : Option T)
  | fallback
  | done (r : Option T)
deriving Repr, DecidableEq

/-- Shared state plus the control point of every thread. -/
structure CState (T S : Type) where
  source : Option S
  value : Option T
  locked : Bool
  tpc : Nat → TPC T S

/-- Pointwise update of the thread-control-point map. -/
def updFn {T S : Type} (t : Nat → TPC T S) (i : Nat) (x : TPC T S) : Nat → TPC T S :=
  fun j => if j = i then x else t j

/-- One interleaving step: either some thread `i` advances through
`get_transformed`, or the environment publishes a new source
(`set_source` by a producer thread). -/
inductive CStep {T S : Type} (f : S → Option T) : CState T S → CState T S → Prop where
  | envSet (g : CState T S) (s : S) :
      CStep f g { g with source := some s }
  | tBegin (g : CState T S) (i : Nat) (h : g.tpc i = .idle) :
      CStep f g { g with
        tpc := updFn g.tpc i (if g.source.isSome then .atTryLock else .fallback) }
  | tLockFail (g : CState T S) (i : Nat) (h : g.tpc i = .atTryLock) (hl : g.locked = true) :
      CStep f g { g with tpc := updFn g.tpc i .fallback }
  | tLockOk (g : CState T S) (i : Nat) (h : g.tpc i = .atTryLock) (hl : g.locked = false) :
      CStep f g { g with locked := true, tpc := updFn g.tpc i .atDrain }
  | tDrainNone (g : CState T S) (i : Nat) (h : g.tpc i = .atDrain) (hs : g.source = none) :
      CStep f g { g with tpc := updFn g.tpc i (.atUnlock none) }
  | tDrainSome (g : CState T S) (i : Nat) (s : S) (h : g.tpc i = .atDrain)
      (hs : g.source = some s) :
      CStep f g { g with source := none, tpc := updFn g.tpc i (.transforming s) }
  | tTransform (g : CState T S) (i : Nat) (s : S) (h : g.tpc i = .transforming s) :
      CStep f g { g with
        tpc := updFn g.tpc i (match f s with
          | none => .atUnlock none
          | some v => .atPublish v) }
  | tPublish (g : CState T S) (i : Nat) (v : T) (h : g.tpc i = .atPublish v) :
      CStep f g { g with value := some v, tpc := updFn g.tpc i (.atUnlock (some v)) }
  | tUnlock (g : CState T S) (i : Nat) (r : Option T) (h : g.tpc i = .atUnlock r) :
      CStep f g { g with locked := false, tpc := updFn g.tpc i (match r with
        | some v => .done (some v)
        | none => .fallback) }
  | tFallback (g : CState T S) (i : Nat) (h : g.tpc i = .fallback) :
      CStep f g { g with tpc := updFn g.tpc i (.done g.value) }
  | tFinish (g : CState T S) (i : Nat) (r : Option T) (h : g.tpc i = .done r) :
      CStep f g { g with tpc := updFn g.tpc i .idle }

/-- Initial concurrent state: both slots null, lock free, all threads idle. -/
def cInit (T S : Type) : CState T S :=
  { source := none, value := none, locked := false, tpc := fun _ => .idle }

/-- Reachability from the initial state under the interleaving semantics. -/
def Reachable {T S : Type} (f : S → Option T) (g : CState T S) : Prop :=
  Relation.ReflTransGen (CStep f) (cInit T S) g

/-- A thread at this control point holds the latch (it is inside the critical
section of `try_transform`, between the successful `try_lock` and the guard
drop). -/
def holdsLatch {T S : Type} : TPC T S → Bool
  | .atDrain => true
  | .transforming _ => true
  | .atPublish _ => true
  | .atUnlock _ => true
  | _ => false

/-- Latch invariant: any thread inside the critical section sees the lock bit
set, and at most one thread is inside the critical section. -/
def CInv {T S : Type} (g : CState T S) : Prop :=
  (∀ i, holdsLatch (g.tpc i) = true → g.locked = true) ∧
  (∀ i j, holdsLatch (g.tpc i) = true → holdsLatch (g.tpc j) = true → i = j)

/-- Witness trajectory state: after a producer publishes `4`. -/
def cw1 : CState Int Int :=
  { cInit Int Int with source := some 4 }

/-- Witness trajectory state: thread `0` passed the advisory source check. -/
def cw2 : CState Int Int :=
  { cw1 with tpc := updFn cw1.tpc 0 (if cw1.source.isSome then .atTryLock else .fallback) }

/-- Witness trajectory state: thread `0` claimed the latch. -/
def cw3 : CState Int Int :=
  { cw2 with locked := true, tpc := updFn cw2.tpc 0 .atDrain }

/-- Witness trajectory state: thread `0` drained the source and runs the
transform on `4`. -/
def cw4 : CState Int Int :=
  { cw3 with source := none, tpc := updFn cw3.tpc 0 (.transforming 4) }

/-- C1: sequential example scenario.  On a fresh instance `get_transformed`
returns `none`; after `set_source 4` it returns `some 8`; after a further
`set_source 3` (declined, stale cache served) it returns `some 8`; after a
further `set_source 6` it returns `some 12`. -/
theorem c1_example_scenario :
    (getTransformed doubleEven (LazyTransform.new Int Int)).1 = none ∧
    (getTransformed doubleEven (setSource (LazyTransform.new Int Int) 4)).1 = some 8 ∧
    (getTransformed doubleEven
      (setSource (getTransformed doubleEven
        (setSource (LazyTransform.new Int Int) 4)).2 3)).1 = some 8 ∧
    (getTransformed doubleEven
      (setSource (getTransformed doubleEven
        (setSource (getTransformed doubleEven
          (setSource (LazyTransform.new Int Int) 4)).2 3)).2 6)).1 = some 12 := by
  decide

/-- C2: if the transform declines the consumed source, the consuming
`get_transformed` call returns the previous cached value, leaves the
cached-value slot unchanged, and discards the consumed source (the
pending-source slot becomes empty). -/
theorem c2_decline_keeps_cache {T S : Type} (f : S → Option T) (st : LazyTransform T S)
    (s : S) (hs : st.source = some s) (hl : st.transform_lock = false) (hf : f s = none) :
    (getTransformed f st).1 = st.value ∧
    (getTransformed f st).2.value = st.value ∧
    (getTransformed f st).2.source = none := by
  simp [getTransformed, tryTransform, tryLock, dropGuard, hs, hl, hf]

/-- Witness for C2: state with pending source `3`, cached value `8`; the
transform `doubleEven` declines `3`. -/
theorem c2_decline_keeps_cache_witness :
    (getTransformed doubleEven ⟨some 3, some 8, false, []⟩).1 =
      (⟨some 3, some 8, false, []⟩ : LazyTransform Int Int).value ∧
    (getTransformed doubleEven ⟨some 3, some 8, false, []⟩).2.value =
      (⟨some 3, some 8, false, []⟩ : LazyTransform Int Int).value ∧
    (getTransformed doubleEven ⟨some 3, some 8, false, []⟩).2.source = none :=
  c2_decline_keeps_cache doubleEven ⟨some 3, some 8, false, []⟩ 3 rfl rfl (by decide)

/-- C5: `set_source` is total and leaves the cached-value slot, the lock bit
and the ghost transform-call log unchanged; it only replaces the
pending-source slot.  In the allocation-tracking model it additionally only
retires the previous pending box (appended to `srcBoxFreed`), leaving the
cached slot and the other release ledgers unchanged. -/
theorem c5_set_source_frame :
    (∀ (T S : Type) (st : LazyTransform T S) (s : S),
      (setSource st s).value = st.value ∧
      (setSource st s).transform_lock = st.transform_lock ∧
      (setSource st s).transformCalls = st.transformCalls ∧
      (setSource st s).source = some s) ∧
    (∀ (T S : Type) (st : RState T S) (s : S),
      (rSetSource st s).cached = st.cached ∧
      (rSetSource st s).transform_lock = st.transform_lock ∧
      (rSetSource st s).srcInnerReleased = st.srcInnerReleased ∧
      (rSetSource st s).valReleased = st.valReleased ∧
      (rSetSource st s).pending = some (st.nextId, s) ∧
      (rSetSource st s).srcBoxFreed = st.srcBoxFreed ++ (match st.pending with
        | some (i, _) => [i]
        | none => [])) :=
  ⟨fun _ _ _ _ => ⟨rfl, rfl, rfl, rfl⟩,
   fun _ _ _ _ => ⟨rfl, rfl, rfl, rfl, rfl, rfl⟩⟩

/-- C6: `try_lock` returns a guard exactly when the lock bit was free, and
always leaves the bit set (free-to-held transition); dropping the guard
unconditionally clears the bit; and `try_transform` restores the lock bit on
every exit path (no pending source, declining transform, successful
transform, and the failed-lock path where the bit was already held by
another). -/
theorem c6_latch_contract :
    tryLock false = (some (), true) ∧
    tryLock true = (none, true) ∧
    (∀ b : Bool, dropGuard b = false) ∧
    (∀ (T S : Type) (f : S → Option T) (st : LazyTransform T S),
      (tryTransform f st).2.transform_lock = st.transform_lock) := by
  refine ⟨rfl, rfl, fun _ => rfl, fun T S f st => ?_⟩
  rcases hl : st.transform_lock with _ | _
  · rcases hs : st.source with _ | s
    · simp [tryTransform, tryLock, dropGuard, hl, hs]
    · rcases hf : f s with _ | v <;>
        simp [tryTransform, tryLock, dropGuard, hl, hs, hf]
  · simp [tryTransform, tryLock, hl]

/-- C10: in a sequential execution, if `get_transformed` returns `some v`,
then its result state has an empty pending-source slot, and a second
`get_transformed` with no intervening `set_source` returns the same `some v`
and the identical state (in particular the ghost transform-call log is
unchanged: no transform is executed by the second call). -/
theorem c10_get_idempotent {T S : Type} (f : S → Option T) (st : LazyTransform T S) (v : T)
    (hl : st.transform_lock = false) (hv : (getTransformed f st).1 = some v) :
    (getTransformed f st).2.source = none ∧
    getTransformed f (getTransformed f st).2 = (some v, (getTransformed f st).2) := by
  rcases hs : st.source with _ | s
  · simp only [getTransformed, hs, Option.isSome_none, Bool.false_eq_true, if_false] at hv ⊢
    simp [hv]
  · rcases hf : f s with _ | w
    · simp only [getTransformed, tryTransform, tryLock, dropGuard, hs, hl] at hv ⊢
      simp only [hf] at hv ⊢
      simp at hv ⊢
      simp [getTransformed, hv]
    · simp only [getTransformed, tryTransform, tryLock, dropGuard, hs, hl] at hv ⊢
      simp only [hf] at hv ⊢
      simp at hv ⊢
      simp [getTransformed, hv]

/-- Witness for C10: after `set_source 4`, the first `get_transformed`
returns `some 8`; the second read is idempotent. -/
theorem c10_get_idempotent_witness :
    (getTransformed doubleEven ⟨some 4, none, false, []⟩).2.source = none ∧
    getTransformed doubleEven (getTransformed doubleEven ⟨some 4, none, false, []⟩).2 =
      (some 8, (getTransformed doubleEven ⟨some 4, none, false, []⟩).2) :=
  c10_get_idempotent doubleEven ⟨some 4, none, false, []⟩ 8 rfl (by decide)

/-- A burst of `set_source` calls leaves the cached-value slot unchanged. -/
theorem setSources_value {T S : Type} (st : LazyTransform T S) (l : List S) :
    (setSources st l).value = st.value := by
  induction l generalizing st with
  | nil => rfl
  | cons a l ih => exact ih (setSource st a)

/-- A burst of `set_source` calls leaves the lock bit unchanged. -/
theorem setSources_lock {T S : Type} (st : LazyTransform T S) (l : List S) :
    (setSources st l).transform_lock = st.transform_lock := by
  induction l generalizing st with
  | nil => rfl
  | cons a l ih => exact ih (setSource st a)

/-- A burst of `set_source` calls passes nothing to the transform function. -/
theorem setSources_calls {T S : Type} (st : LazyTransform T S) (l : List S) :
    (setSources st l).transformCalls = st.transformCalls := by
  induction l generalizing st with
  | nil => rfl
  | cons a l ih => exact ih (setSource st a)

/-- After a nonempty burst of `set_source` calls the pending-source slot
holds exactly the most recent source. -/
theorem setSources_source {T S : Type} (st : LazyTransform T S) (l : List S)
    (h : l ≠ []) : (setSources st l).source = some (l.getLast h) := by
  induction l generalizing st with
  | nil => exact absurd rfl h
  | cons a l ih =>
    rcases l with _ | ⟨b, l⟩
    · rfl
    · rw [List.getLast_cons (List.cons_ne_nil b l)]
      exact ih (setSource st a) (List.cons_ne_nil b l)

/-- C3: for a burst `set_source s1, …, set_source sn` with no intervening
reads, nothing is transformed during the burst, the pending slot holds only
the most recent source `sn`, and the next `get_transformed` passes at most
`sn` to the transform function — the ghost call log either is unchanged or
grows by exactly `[sn]`; every earlier `si` is dropped untransformed. -/
theorem c3_consumption_once {T S : Type} (f : S → Option T) (st : LazyTransform T S)
    (l : List S) (hne : l ≠ []) :
    (setSources st l).transformCalls = st.transformCalls ∧
    (setSources st l).source = some (l.getLast hne) ∧
    ((getTransformed f (setSources st l)).2.transformCalls = st.transformCalls ∨
     (getTransformed f (setSources st l)).2.transformCalls
       = st.transformCalls ++ [l.getLast hne]) := by
  refine ⟨setSources_calls st l, setSources_source st l hne, ?_⟩
  have hs := setSources_source st l hne
  have hc := setSources_calls st l
  rcases hl : (setSources st l).transform_lock with _ | _
  · right
    rcases hf : f (l.getLast hne) with _ | w <;>
      simp [getTransformed, tryTransform, tryLock, dropGuard, hs, hl, hf, hc]
  · left
    simp [getTransformed, tryTransform, tryLock, hs, hl, hc]

/-- Witness for C3: the burst `set_source 1, set_source 3, set_source 6` on a
fresh instance; only `6` may reach the transform. -/
theorem c3_consumption_once_witness :
    (setSources (LazyTransform.new Int Int) [1, 3, 6]).transformCalls =
      (LazyTransform.new Int Int).transformCalls ∧
    (setSources (LazyTransform.new Int Int) [1, 3, 6]).source =
      some (([1, 3, 6] : List Int).getLast (by decide)) ∧
    ((getTransformed doubleEven (setSources (LazyTransform.new Int Int) [1, 3, 6])).2.transformCalls =
      (LazyTransform.new Int Int).transformCalls ∨
     (getTransformed doubleEven (setSources (LazyTransform.new Int Int) [1, 3, 6])).2.transformCalls =
      (LazyTransform.new Int Int).transformCalls ++ [([1, 3, 6] : List Int).getLast (by decide)]) :=
  c3_consumption_once doubleEven (LazyTransform.new Int Int) [1, 3, 6] (by decide)

/-- `try_transform` restores the lock bit: unchanged when the claim fails
(the bit stays held by the other owner), cleared again by the guard drop on
every exit path when the claim succeeds. -/
theorem tryTransform_lock_eq {T S : Type} (f : S → Option T) (st : LazyTransform T S) :
    (tryTransform f st).2.transform_lock = st.transform_lock := by
  rcases hl : st.transform_lock with _ | _
  · rcases hs : st.source with _ | s
    · simp [tryTransform, tryLock, dropGuard, hl, hs]
    · rcases hf : f s with _ | v <;>
        simp [tryTransform, tryLock, dropGuard, hl, hs, hf]
  · simp [tryTransform, tryLock, hl]

/-- `get_transformed` restores the lock bit. -/
theorem getTransformed_lock_eq {T S : Type} (f : S → Option T) (st : LazyTransform T S) :
    (getTransformed f st).2.transform_lock = st.transform_lock := by
  rcases hs : st.source with _ | s
  · simp [getTransformed, hs]
  · have h := tryTransform_lock_eq f st
    rcases ht : tryTransform f st with ⟨_ | v, st1⟩ <;>
      simp [getTransformed, hs, ht] <;> rw [ht] at h <;> exact h

/-- Key per-read facts for the monotone-cache property: with the lock free,
a read keeps a non-empty cached slot non-empty and then returns a value, and
a read that returns a value leaves the cached slot non-empty. -/
theorem getTransformed_cache_facts {T S : Type} (f : S → Option T)
    (st : LazyTransform T S) (hl : st.transform_lock = false) :
    (st.value.isSome = true → (getTransformed f st).1.isSome = true ∧
      (getTransformed f st).2.value.isSome = true) ∧
    ((getTransformed f st).1.isSome = true → (getTransformed f st).2.value.isSome = true) := by
  rcases hs : st.source with _ | s
  · simp [getTransformed, hs]
  · rcases hf : f s with _ | w <;>
      simp [getTransformed, tryTransform, tryLock, dropGuard, hs, hl, hf]

/-- Running client operations never changes the lock bit. -/
theorem runOps_lock {T S : Type} (f : S → Option T) (st : LazyTransform T S)
    (ops : List (Op S)) : (runOps f st ops).1.transform_lock = st.transform_lock := by
  induction ops generalizing st with
  | nil => rfl
  | cons op ops ih =>
    rcases op with s | _
    · simpa [runOps, applyOp] using ih (setSource st s)
    · rcases hg : getTransformed f st with ⟨r, st1⟩
      have h := getTransformed_lock_eq f st
      rw [hg] at h
      have h1 := ih st1
      rw [h] at h1
      simpa [runOps, applyOp, hg] using h1

/-- With the lock free and the cached slot non-empty, running any client
operations keeps the cached slot non-empty and every read returns a value. -/
theorem runOps_value_isSome {T S : Type} (f : S → Option T) (st : LazyTransform T S)
    (ops : List (Op S)) (hl : st.transform_lock = false) (hv : st.value.isSome = true) :
    (runOps f st ops).1.value.isSome = true ∧
    (runOps f st ops).2.all Option.isSome = true := by
  induction ops generalizing st with
  | nil => exact ⟨hv, rfl⟩
  | cons op ops ih =>
    rcases op with s | _
    · simpa [runOps, applyOp] using ih (setSource st s) hl hv
    · rcases hg : getTransformed f st with ⟨r, st1⟩
      have hlock := getTransformed_lock_eq f st
      rw [hg] at hlock
      have hfacts := (getTransformed_cache_facts f st hl).1 hv
      rw [hg] at hfacts
      have ih1 := ih st1 (by rw [hlock]; exact hl) hfacts.2
      simp [runOps, applyOp, hg, ih1.1, ih1.2, hfacts.1]

/-- With the lock free, the sequence of read results never reverts from
`some` back to `none`. -/
theorem runOps_onceSome {T S : Type} (f : S → Option T) (st : LazyTransform T S)
    (ops : List (Op S)) (hl : st.transform_lock = false) :
    onceSomeAlwaysSome (runOps f st ops).2 = true := by
  induction ops generalizing st with
  | nil => rfl
  | cons op ops ih
  =>
    rcases op with s | _
    · simpa [runOps, applyOp] using ih (setSource st s) hl
    · rcases hg : getTransformed f st with ⟨r, st1⟩
      have hlock := getTransformed_lock_eq f st
      rw [hg] at hlock
      have hl1 : st1.transform_lock = false := by rw [hlock]; exact hl
      rcases r with _ | w
      · simpa [runOps, applyOp, hg, onceSomeAlwaysSome] using ih st1 hl1
      · have hpost := (getTransformed_cache_facts f st hl).2
        rw [hg] at hpost
        have hv1 : st1.value.isSome = true := hpost (by simp)
        have hall := (runOps_value_isSome f st1 ops hl1 hv1).2
        simp [runOps, applyOp, hg, onceSomeAlwaysSome, hall]

/-- C4: the cached-value slot is monotone.  A `set_source` leaves it
unchanged and a read either leaves it unchanged or replaces it with a value
the transform function successfully produced; with the lock free, a
non-empty cached slot stays non-empty under any sequence of operations, and
the read results never revert from `some` to `none`. -/
theorem c4_monotonic_cache {T S : Type} (f : S → Option T) (st : LazyTransform T S)
    (ops : List (Op S)) (hl : st.transform_lock = false) :
    (st.value.isSome = true → (runOps f st ops).1.value.isSome = true) ∧
    onceSomeAlwaysSome (runOps f st ops).2 = true ∧
    (∀ op : Op S, (applyOp f op st).1.value = st.value ∨
      ∃ s w, f s = some w ∧ (applyOp f op st).1.value = some w) := by
  refine ⟨fun hv => (runOps_value_isSome f st ops hl hv).1,
          runOps_onceSome f st ops hl, fun op => ?_⟩
  rcases op with s | _
  · exact Or.inl rfl
  · rcases hs : st.source with _ | s
    · left
      simp [applyOp, getTransformed, hs]
    · rcases hf : f s with _ | w
      · left
        simp [applyOp, getTransformed, tryTransform, tryLock, dropGuard, hs, hl, hf]
      · right
        exact ⟨s, w, hf, by
          simp [applyOp, getTransformed, tryTransform, tryLock, dropGuard, hs, hl, hf]⟩

/-- Witness for C4: a fresh instance, one publish, reads around a declined
publish. -/
theorem c4_monotonic_cache_witness :
    ((LazyTransform.new Int Int).value.isSome = true →
      (runOps doubleEven (LazyTransform.new Int Int)
        [Op.setSrc 4, Op.read, Op.setSrc 3, Op.read]).1.value.isSome = true) ∧
    onceSomeAlwaysSome (runOps doubleEven (LazyTransform.new Int Int)
      [Op.setSrc 4, Op.read, Op.setSrc 3, Op.read]).2 = true ∧
    (∀ op : Op Int,
      (applyOp doubleEven op (LazyTransform.new Int Int)).1.value =
        (LazyTransform.new Int Int).value ∨
      ∃ s w, doubleEven s = some w ∧
        (applyOp doubleEven op (LazyTransform.new Int Int)).1.value = some w) :=
  c4_monotonic_cache doubleEven (LazyTransform.new Int Int)
    [Op.setSrc 4, Op.read, Op.setSrc 3, Op.read] rfl

/-- The latch invariant holds in the initial state (all threads idle). -/
theorem cinv_init (T S : Type) : CInv (cInit T S) :=
  ⟨fun i h => by simp [cInit, holdsLatch] at h,
   fun i j hi hj => by simp [cInit, holdsLatch] at hi⟩

/-- One interleaving step preserves the latch invariant. -/
theorem cinv_step {T S : Type} {f : S → Option T} {g g1 : CState T S}
    (hstep : CStep f g g1) (hinv : CInv g) : CInv g1 := by
  obtain ⟨hlock, huniq⟩ := hinv
  cases hstep with
  | envSet s => exact ⟨hlock, huniq⟩
  | tBegin i h =>
    have hx : ∀ b : Bool, holdsLatch (T := T) (S := S)
        (if b then TPC.atTryLock else TPC.fallback) = false := by
      intro b; cases b <;> rfl
    refine ⟨fun k hk => ?_, fun k l hk hl2 => ?_⟩
    · simp only [updFn] at hk
      by_cases hki : k = i
      · rw [if_pos hki, hx] at hk; exact Bool.noConfusion hk
      · rw [if_neg hki] at hk; exact hlock k hk
    · simp only [updFn] at hk hl2
      by_cases hki : k = i
      · rw [if_pos hki, hx] at hk; exact Bool.noConfusion hk
      · rw [if_neg hki] at hk
        by_cases hli : l = i
        · rw [if_pos hli, hx] at hl2; exact Bool.noConfusion hl2
        · rw [if_neg hli] at hl2; exact huniq k l hk hl2
  | tLockFail i h hl =>
    refine ⟨fun k hk => ?_, fun k l hk hl2 => ?_⟩
    · simp only [updFn] at hk
      by_cases hki : k = i
      · rw [if_pos hki] at hk; exact Bool.noConfusion hk
      · rw [if_neg hki] at hk; exact hlock k hk
    · simp only [updFn] at hk hl2
      by_cases hki : k = i
      · rw [if_pos hki] at hk; exact Bool.noConfusion hk
      · rw [if_neg hki] at hk
        by_cases hli : l = i
        · rw [if_pos hli] at hl2; exact Bool.noConfusion hl2
        · rw [if_neg hli] at hl2; exact huniq k l hk hl2
  | tLockOk i h hl =>
    refine ⟨fun k _ => rfl, fun k l hk hl2 => ?_⟩
    simp only [updFn] at hk hl2
    by_cases hki : k = i
    · by_cases hli : l = i
      · rw [hki, hli]
      · rw [if_neg hli] at hl2
        have hc := hlock l hl2
        rw [hl] at hc
        exact Bool.noConfusion hc
    · rw [if_neg hki] at hk
      have hc := hlock k hk
      rw [hl] at hc
      exact Bool.noConfusion hc
  | tDrainNone i h hs =>
    have hold_i : holdsLatch (g.tpc i) = true := by rw [h]; rfl
    refine ⟨fun k _ => hlock i hold_i, fun k l hk hl2 => ?_⟩
    simp only [updFn] at hk hl2
    by_cases hki : k = i
    · by_cases hli : l = i
      · rw [hki, hli]
      · rw [if_neg hli] at hl2; exact absurd (huniq l i hl2 hold_i) hli
    · rw [if_neg hki] at hk; exact absurd (huniq k i hk hold_i) hki
  | tDrainSome i s h hs =>
    have hold_i : holdsLatch (g.tpc i) = true := by rw [h]; rfl
    refine ⟨fun k _ => hlock i hold_i, fun k l hk hl2 => ?_⟩
    simp only [updFn] at hk hl2
    by_cases hki : k = i
    · by_cases hli : l = i
      · rw [hki, hli]
      · rw [if_neg hli] at hl2; exact absurd (huniq l i hl2 hold_i) hli
    · rw [if_neg hki] at hk; exact absurd (huniq k i hk hold_i) hki
  | tTransform i s h =>
    have hold_i : holdsLatch (g.tpc i) = true := by rw [h]; rfl
    refine ⟨fun k _ => hlock i hold_i, fun k l hk hl2 => ?_⟩
    simp only [updFn] at hk hl2
    by_cases hki : k = i
    · by_cases hli : l = i
      · rw [hki, hli]
      · rw [if_neg hli] at hl2; exact absurd (huniq l i hl2 hold_i) hli
    · rw [if_neg hki] at hk; exact absurd (huniq k i hk hold_i) hki
  | tPublish i v h =>
    have hold_i : holdsLatch (g.tpc i) = true := by rw [h]; rfl
    refine ⟨fun k _ => hlock i hold_i, fun k l hk hl2 => ?_⟩
    simp only [updFn] at hk hl2
    by_cases hki : k = i
    · by_cases hli : l = i
      · rw [hki, hli]
      · rw [if_neg hli] at hl2; exact absurd (huniq l i hl2 hold_i) hli
    · rw [if_neg hki] at hk; exact absurd (huniq k i hk hold_i) hki
  | tUnlock i r h =>
    have hold_i : holdsLatch (g.tpc i) = true := by rw [h]; rfl
    have hx : holdsLatch (T := T) (S := S)
        (match r with
         | some v => TPC.done (some v)
         | none => TPC.fallback) = false := by
      cases r <;> rfl
    refine ⟨fun k hk => ?_, fun k l hk hl2 => ?_⟩
    · simp only [updFn] at hk
      by_cases hki : k = i
      · rw [if_pos hki, hx] at hk; exact Bool.noConfusion hk
      · rw [if_neg hki] at hk; exact absurd (huniq k i hk hold_i) hki
    · simp only [updFn] at hk hl2
      by_cases hki : k = i
      · rw [if_pos hki, hx] at hk; exact Bool.noConfusion hk
      · rw [if_neg hki] at hk; exact absurd (huniq k i hk hold_i) hki
  | tFallback i h =>
    refine ⟨fun k hk => ?_, fun k l hk hl2 => ?_⟩
    · simp only [updFn] at hk
      by_cases hki : k = i
      · rw [if_pos hki] at hk; exact Bool.noConfusion hk
      · rw [if_neg hki] at hk; exact hlock k hk
    · simp only [updFn] at hk hl2
      by_cases hki : k = i
      · rw [if_pos hki] at hk; exact Bool.noConfusion hk
      · rw [if_neg hki] at hk
        by_cases hli : l = i
        · rw [if_pos hli] at hl2; exact Bool.noConfusion hl2
        · rw [if_neg hli] at hl2; exact huniq k l hk hl2
  | tFinish i r h =>
    refine ⟨fun k hk => ?_, fun k l hk hl2 => ?_⟩
    · simp only [updFn] at hk
      by_cases hki : k = i
      · rw [if_pos hki] at hk; exact Bool.noConfusion hk
      · rw [if_neg hki] at hk; exact hlock k hk
    · simp only [updFn] at hk hl2
      by_cases hki : k = i
      · rw [if_pos hki] at hk; exact Bool.noConfusion hk
      · rw [if_neg hki] at hk
        by_cases hli : l = i
        · rw [if_pos hli] at hl2; exact Bool.noConfusion hl2
        · rw [if_neg hli] at hl2; exact huniq k l hk hl2

/-- Every reachable state satisfies the latch invariant. -/
theorem reachable_cinv {T S : Type} {f : S → Option T} {g : CState T S}
    (h : Reachable f g) : CInv g := by
  induction h with
  | refl => exact cinv_init T S
  | tail hsteps hstep ih => exact cinv_step hstep ih

/-- C7: under any interleaved schedule with any number of threads running
`get_transformed` (and producers running `set_source`), the transform body is
never executing in two threads at the same instant, and a thread executing
the transform does so while the latch is held. -/
theorem c7_transform_exclusive {T S : Type} (f : S → Option T) (g : CState T S)
    (hreach : Reachable f g) (i j : Nat) (s1 s2 : S)
    (hi : g.tpc i = .transforming s1) (hj : g.tpc j = .transforming s2) :
    i = j ∧ g.locked = true := by
  obtain ⟨hlock, huniq⟩ := reachable_cinv hreach
  have hhi : holdsLatch (g.tpc i) = true := by rw [hi]; rfl
  have hhj : holdsLatch (g.tpc j) = true := by rw [hj]; rfl
  exact ⟨huniq i j hhi hhj, hlock i hhi⟩

/-- The witness trajectory is reachable: a producer publishes `4`, thread `0`
passes the advisory check, claims the latch and drains the source. -/
theorem cw4_reachable : Reachable doubleEven cw4 := by
  have h1 : CStep doubleEven (cInit Int Int) cw1 := CStep.envSet (cInit Int Int) 4
  have h2 : CStep doubleEven cw1 cw2 := CStep.tBegin cw1 0 rfl
  have h3 : CStep doubleEven cw2 cw3 := CStep.tLockOk cw2 0 rfl rfl
  have h4 : CStep doubleEven cw3 cw4 := CStep.tDrainSome cw3 0 4 rfl rfl
  exact Relation.ReflTransGen.tail
    (Relation.ReflTransGen.tail
      (Relation.ReflTransGen.tail
        (Relation.ReflTransGen.tail Relation.ReflTransGen.refl h1) h2) h3) h4

/-- Witness for C7: in the reachable state `cw4`, thread `0` runs the
transform on `4`; exclusivity and latch ownership are conclusions of the
main theorem applied there. -/
theorem c7_transform_exclusive_witness : (0 : Nat) = 0 ∧ cw4.locked = true :=
  c7_transform_exclusive doubleEven cw4 cw4_reachable 0 0 4 4 rfl rfl

/-- C8 (code bug evaluation): run `set_source 1; set_source 2;
get_transformed; drop` on a fresh instance.  The superseded source box `0`
is retired (`defer_destroy` frees the `ManuallyDrop<S>` box, id in
`srcBoxFreed`), but its inner contents — the value `1` — are never released:
dropping `ManuallyDrop<S>` does not run the destructor of the inner `S`, and
no later operation can reach the superseded box.  Only the consumed source
box `1` ever has its inner value released (moved into the transform). -/
theorem c8_superseded_source_inner_leak :
    (rDestroy (rGetTransformed doubleEven
      (rSetSource (rSetSource (RState.new Int Int) 1) 2)).2).srcBoxFreed = [0, 1] ∧
    (rDestroy (rGetTransformed doubleEven
      (rSetSource (rSetSource (RState.new Int Int) 1) 2)).2).srcInnerReleased = [1] ∧
    0 ∉ (rDestroy (rGetTransformed doubleEven
      (rSetSource (rSetSource (RState.new Int Int) 1) 2)).2).srcInnerReleased := by
  decide

/-- C9 (code bug evaluation): run `set_source 4; get_transformed;
set_source 6` on a fresh instance, then drop it.  At destruction the
pending-source slot holds box `2` (source `6`) and the cached-value slot
holds box `1` (value `8`); since `LazyTransform` implements no `Drop` and a
crossbeam-epoch `Atomic` does not destroy its pointee when dropped, neither
box is released by destruction: the release ledgers are unchanged and never
mention boxes `1` and `2`. -/
theorem c9_destroy_leaks :
    (rSetSource (rGetTransformed doubleEven
      (rSetSource (RState.new Int Int) 4)).2 6).pending = some (2, 6) ∧
    (rSetSource (rGetTransformed doubleEven
      (rSetSource (RState.new Int Int) 4)).2 6).cached = some (1, 8) ∧
    (rDestroy (rSetSource (rGetTransformed doubleEven
      (rSetSource (RState.new Int Int) 4)).2 6)).srcBoxFreed = [0] ∧
    (rDestroy (rSetSource (rGetTransformed doubleEven
      (rSetSource (RState.new Int Int) 4)).2 6)).srcInnerReleased = [0] ∧
    (rDestroy (rSetSource (rGetTransformed doubleEven
      (rSetSource (RState.new Int Int) 4)).2 6)).valReleased = [] ∧
    2 ∉ (rDestroy (rSetSource (rGetTransformed doubleEven
      (rSetSource (RState.new Int Int) 4)).2 6)).srcBoxFreed ∧
    1 ∉ (rDestroy (rSetSource (rGetTransformed doubleEven
      (rSetSource (RState.new Int Int) 4)).2 6)).valReleased := by
  decide
